import Mathlib

/-!
Shallow embedding of `src/BLOG/dspblog.py`, a PPG (photoplethysmography)
denoising script built on numpy/scipy.  Real-valued floating-point
computation is modelled over `ℝ`; Python/numpy exceptions are modelled
with `Except PyError`.  Library routines the script calls
(`np.linspace`, `scipy.signal.iirnotch`, `scipy.signal.butter`,
`scipy.signal.filtfilt`, `scipy.fft.fft`, `scipy.fft.fftfreq`,
`np.var`) are embedded from their reference semantics, since their
behaviour is part of the script's behaviour.
-/

open scoped Classical

noncomputable section

open Real

/-- Exceptions raised by the Python/numpy/scipy layer. -/
inductive PyError
  | valueError
  | zeroDivisionError
  deriving DecidableEq

/-! ## Signal generator (`generate_ppg_signal`) -/

/-- Value of `np.linspace start stop num` at index `i`: numpy includes the stop
endpoint, so the step is `(stop - start)/(num - 1)` (for `num ≥ 2`;
`num = 1` gives `[start]`). -/
def linspaceVal (start stop : ℝ) (num : ℕ) (i : ℕ) : ℝ :=
  if num ≤ 1 then start else start + i * (stop - start) / ((num : ℝ) - 1)

/-- Buffer length `int(fs * duration)` from `generate_ppg_signal`
(truncation of a positive product is the floor). -/
def numSamples (fs duration : ℝ) : ℕ :=
  (⌊fs * duration⌋).toNat

/-- The time axis `t = np.linspace(0, duration, int(fs * duration))`. -/
def tVal (fs duration : ℝ) (i : ℕ) : ℝ :=
  linspaceVal 0 duration (numSamples fs duration) i

/-- One sample of the clean PPG signal:
`np.sin(2*np.pi*1.25*t) + 0.3*np.sin(4*np.pi*1.25*t)`. -/
def cleanSample (fs duration : ℝ) (i : ℕ) : ℝ :=
  Real.sin (2 * π * 1.25 * tVal fs duration i)
    + 0.3 * Real.sin (4 * π * 1.25 * tVal fs duration i)

/-- The clean buffer returned by `generate_ppg_signal`. -/
def cleanBuffer (fs duration : ℝ) : List ℝ :=
  (List.range (numSamples fs duration)).map (cleanSample fs duration)

/-- The clean-signal formula as the spec states it, with
`t_i = i / sample_rate` (to be compared with the code's `cleanSample`). -/
def cleanSpecFormula (fs : ℝ) (i : ℕ) : ℝ :=
  Real.sin (2 * π * 1.25 * ((i : ℝ) / fs))
    + 0.3 * Real.sin (4 * π * 1.25 * ((i : ℝ) / fs))

/-! ## Filter design (`scipy.signal.iirnotch`, `scipy.signal.butter`) -/

/-- One step of `np.poly` / `np.convolve(c, [1, -r])`: multiply the
polynomial with coefficient list `c` (highest power first) by `(X - r)`. -/
def polyStep (c : List ℂ) (r : ℂ) : List ℂ :=
  List.zipWith (fun x y => x - r * y) (c ++ [0]) (0 :: c)

/-- Embeds `np.poly roots`: monic polynomial coefficients (highest power first)
with the given roots. -/
def polyFromRoots (roots : List ℂ) : List ℂ :=
  roots.foldl polyStep [1]

/-- Embeds `scipy.signal.iirnotch(w0, Q)` with its default `fs = 2.0`, so the
internal normalized frequency equals the argument `w0`.  The range check
is scipy's (non-strict: `w0 > 1.0 or w0 < 0.0` raises); `bw = w0/Q`
raises `ZeroDivisionError` for `Q = 0` on Python floats. -/
def iirnotch (w0 Q : ℝ) : Except PyError (List ℝ × List ℝ) :=
  if 1 < w0 ∨ w0 < 0 then .error .valueError
  else if Q = 0 then .error .zeroDivisionError
  else
    let bw := w0 / Q * π
    let w0p := w0 * π
    let beta := Real.tan (bw / 2)
    let gain := 1 / (1 + beta)
    .ok ([gain * 1, gain * (-2 * Real.cos w0p), gain * 1],
         [1, -2 * gain * Real.cos w0p, 2 * gain - 1])

/-- Butterworth band type of `scipy.signal.butter`. -/
inductive BType
  | high
  | low
  deriving DecidableEq

/-- Embeds `scipy.signal.buttap N`: poles of the analog Butterworth prototype,
`p_k = -exp(i π m_k / (2N))` with `m_k = -N + 1 + 2k`; no zeros; gain 1. -/
def buttapPoles (N : ℕ) : List ℂ :=
  (List.range N).map fun (k : ℕ) =>
    -Complex.exp (Complex.I * ((π * (2 * (k : ℝ) - (N : ℝ) + 1)) / (2 * (N : ℝ)) : ℝ))

/-- Embeds `scipy.signal.butter(N, Wn, btype)` for a digital filter in `ba`
form: validate `0 < Wn < 1` (strict, raising `ValueError` otherwise),
pre-warp the frequency, transform the analog prototype
(`lp2hp_zpk`/`lp2lp_zpk` with `wo = warped`), apply the bilinear
transform (`bilinear_zpk` with `fs = 2`), and expand zeros/poles/gain to
transfer-function coefficients (`zpk2tf`). -/
def butter (N : ℕ) (Wn : ℝ) (bt : BType) : Except PyError (List ℝ × List ℝ) :=
  if Wn ≤ 0 ∨ 1 ≤ Wn then .error .valueError
  else
    let warped : ℝ := 2 * 2 * Real.tan (π * Wn / 2)
    let z : List ℂ := []
    let p : List ℂ := buttapPoles N
    let k : ℝ := 1
    -- analog lowpass prototype → analog target band
    let zt : List ℂ :=
      match bt with
      | .high => z.map (fun zi => (warped : ℂ) / zi) ++ List.replicate (p.length - z.length) 0
      | .low => z.map (fun zi => (warped : ℂ) * zi)
    let pt : List ℂ :=
      match bt with
      | .high => p.map (fun pi => (warped : ℂ) / pi)
      | .low => p.map (fun pi => (warped : ℂ) * pi)
    let kt : ℝ :=
      match bt with
      | .high => k * (((z.map (fun x => -x)).prod / (p.map (fun x => -x)).prod).re)
      | .low => k * warped ^ (p.length - z.length)
    -- bilinear_zpk with fs = 2, i.e. fs2 = 4
    let zz : List ℂ :=
      zt.map (fun zi => (4 + zi) / (4 - zi)) ++ List.replicate (pt.length - zt.length) (-1)
    let pz : List ℂ := pt.map (fun pi => (4 + pi) / (4 - pi))
    let kz : ℝ :=
      kt * (((zt.map (fun zi => 4 - zi)).prod / (pt.map (fun pi => 4 - pi)).prod).re)
    -- zpk2tf: b = kz * poly(zz), a = poly(pz), real parts taken
    .ok ((polyFromRoots zz).map (fun c => kz * c.re),
         (polyFromRoots pz).map Complex.re)

/-- A filter specification, as the spec's tagged variant. -/
inductive FilterSpec
  | notch (centerFreq qualityFactor : ℝ)
  | highpass (cutoffFreq : ℝ) (order : ℕ)
  | lowpass (cutoffFreq : ℝ) (order : ℕ)

/-- The design step of each stage of `dspblog.py`: normalize the
frequency by the Nyquist frequency `fs / 2` and call the scipy
designer (`iirnotch` for notch, `butter` for high- and low-pass). -/
def designFilter (s : FilterSpec) (fs : ℝ) : Except PyError (List ℝ × List ℝ) :=
  match s with
  | .notch centerFreq qualityFactor => iirnotch (centerFreq / (fs / 2)) qualityFactor
  | .highpass cutoffFreq order => butter order (cutoffFreq / (fs / 2)) .high
  | .lowpass cutoffFreq order => butter order (cutoffFreq / (fs / 2)) .low

/-! ## Filter application (`scipy.signal.filtfilt` and its helpers) -/

/-- The leading-zero stripping loop of `scipy.signal.lfilter_zi`
(`while len(a) > 1 and a[0] == 0.0: a = a[1:]`). -/
def stripLeadZeros : List ℝ → List ℝ
  | [] => []
  | [x] => [x]
  | x :: y :: xs => if x = 0 then stripLeadZeros (y :: xs) else x :: y :: xs

/-- Embeds `scipy.signal.lfilter_zi(b, a)`: normalize by `a[0]`, pad `a` and
`b` to the common length `n`, and solve `(I - companion(a)ᵀ) zi = B`
with `B = b[1:] - a[1:]*b[0]`.  The linear solve is modelled with the
nonsingular matrix inverse; the designs used here give a nonsingular
system (on a singular system scipy would raise, and the value is never
relied upon below). -/
def lfilterZi (b a : List ℝ) : List ℝ :=
  let a1 := stripLeadZeros a
  let a0 := a1.headD 1
  let bn := b.map (· / a0)
  let an := a1.map (· / a0)
  let n := max an.length bn.length
  let ap := an ++ List.replicate (n - an.length) 0
  let bp := bn ++ List.replicate (n - bn.length) 0
  let compT : Matrix (Fin (n - 1)) (Fin (n - 1)) ℝ := fun i j =>
    if (j : ℕ) = 0 then -(ap.getD ((i : ℕ) + 1) 0)
    else if (j : ℕ) = (i : ℕ) + 1 then 1 else 0
  let IminusA := (1 : Matrix (Fin (n - 1)) (Fin (n - 1)) ℝ) - compT
  let B : Fin (n - 1) → ℝ := fun i =>
    bp.getD ((i : ℕ) + 1) 0 - ap.getD ((i : ℕ) + 1) 0 * bp.headD 0
  List.ofFn (IminusA⁻¹.mulVec B)

/-- The direct-form-II-transposed recursion of `scipy.signal.lfilter`:
`y[n] = b[0]·x[n] + z[0]` and `z[i] ← b[i+1]·x[n] + z[i+1] - a[i+1]·y[n]`
(coefficients already normalized and padded; `bt`, `a1` are the tails
`b[1:]`, `a[1:]`).  Returns the outputs and the final state. -/
def lfilterGo (b0 : ℝ) (bt a1 : List ℝ) : List ℝ → List ℝ → List ℝ × List ℝ
  | [], z => ([], z)
  | x :: xs, z =>
    let y := b0 * x + z.headD 0
    let z2 := List.zipWith (fun q zn => q.1 * x - q.2 * y + zn) (bt.zip a1) (z.drop 1 ++ [0])
    let r := lfilterGo b0 bt a1 xs z2
    (y :: r.1, r.2)

/-- Embeds `scipy.signal.lfilter(b, a, x, zi)`: normalize by `a[0]`, pad both
coefficient lists to the common length, run the direct-form-II-transposed
recursion. -/
def lfilter (b a x zi : List ℝ) : List ℝ × List ℝ :=
  let a0 := a.headD 1
  let n := max a.length b.length
  let bp := (b ++ List.replicate (n - b.length) 0).map (· / a0)
  let ap := (a ++ List.replicate (n - a.length) 0).map (· / a0)
  lfilterGo (bp.headD 0) (bp.drop 1) (ap.drop 1) x zi

/-- Embeds `scipy.signal._arraytools.odd_ext(x, n)`: prepend the odd reflection
`2·x[0] - x[n], …, 2·x[0] - x[1]` and append
`2·x[-1] - x[-2], …, 2·x[-1] - x[-(n+1)]`.  (scipy raises unless
`n ≤ len(x) - 1`; `filtfilt`'s own length check below guarantees that.) -/
def oddExt (x : List ℝ) (n : ℕ) : List ℝ :=
  if n < 1 then x
  else
    let x0 := x.headD 0
    let xl := x.getLastD 0
    (((x.drop 1).take n).reverse.map (fun v => 2 * x0 - v)) ++ x
      ++ (((x.reverse.drop 1).take n).map (fun v => 2 * xl - v))

/-- Embeds `scipy.signal.filtfilt(b, a, x)` with its defaults
(`method='pad'`, `padtype='odd'`, `padlen=None`, so
`edge = 3 * max(len(a), len(b))`): raise `ValueError` when
`len(x) ≤ edge`, odd-extend by `edge` samples on both sides, filter
forward with initial state `zi·x[0]`, reverse, filter again with initial
state `zi·y[-1]`, reverse, and slice off the extensions (`y[edge:-edge]`). -/
def filtfilt (b a x : List ℝ) : Except PyError (List ℝ) :=
  let edge := 3 * max a.length b.length
  if x.length ≤ edge then .error .valueError
  else
    let ext := oddExt x edge
    let zi := lfilterZi b a
    let x0 := ext.headD 0
    let y1 := (lfilter b a ext (zi.map (· * x0))).1
    let y0 := y1.getLastD 0
    let y2 := (lfilter b a y1.reverse (zi.map (· * y0))).1
    let y3 := y2.reverse
    .ok ((y3.drop edge).take (y3.length - 2 * edge))

/-! ## The three filter stages and the cascade (`notch_filter`,
`high_pass_filter`, `low_pass_filter`, `demonstrate_filtering`) -/

/-- Embeds `notch_filter(data, notch_freq, quality_factor)`:
`w0 = notch_freq / nyquist`, design with `iirnotch`, apply with
`filtfilt`.  The module-level constant `fs` is passed explicitly. -/
def notch_filter (data : List ℝ) (notch_freq quality_factor fs : ℝ) :
    Except PyError (List ℝ) := do
  let ba ← iirnotch (notch_freq / (fs / 2)) quality_factor
  filtfilt ba.1 ba.2 data

/-- Embeds `high_pass_filter(data, cutoff_freq, order)`: normalize the cutoff
by the Nyquist frequency, design with `butter(..., btype='high')`,
apply with `filtfilt`. -/
def high_pass_filter (data : List ℝ) (cutoff_freq : ℝ) (order : ℕ) (fs : ℝ) :
    Except PyError (List ℝ) := do
  let ba ← butter order (cutoff_freq / (fs / 2)) .high
  filtfilt ba.1 ba.2 data

/-- Embeds `low_pass_filter(data, cutoff_freq, order)`: normalize the cutoff
by the Nyquist frequency, design with `butter(..., btype='low')`,
apply with `filtfilt`. -/
def low_pass_filter (data : List ℝ) (cutoff_freq : ℝ) (order : ℕ) (fs : ℝ) :
    Except PyError (List ℝ) := do
  let ba ← butter order (cutoff_freq / (fs / 2)) .low
  filtfilt ba.1 ba.2 data

/-- The filter cascade of `demonstrate_filtering` (lines 63–66):
`step1 = notch_filter(noisy, 50)`, `step2 = high_pass_filter(step1, 0.5)`,
`filtered = low_pass_filter(step2, 10)`, with the source's default
quality factor 30 and orders 4. -/
def demonstrateCascade (noisy : List ℝ) (fs : ℝ) : Except PyError (List ℝ) := do
  let step1 ← notch_filter noisy 50 30 fs
  let step2 ← high_pass_filter step1 0.5 4 fs
  low_pass_filter step2 10 4 fs

/-- One cascade stage as the spec describes it: `Design(spec)` then
`Apply(coeffs, current_buffer)`. -/
def applyStage (fs : ℝ) (s : FilterSpec) (buf : List ℝ) : Except PyError (List ℝ) := do
  let ba ← designFilter s fs
  filtfilt ba.1 ba.2 buf

/-! ## Spectrum analyzer (`compute_spectrum`) -/

/-- Bin `k` of `scipy.fft.fft(x)`:
`X[k] = Σ_n x[n] · exp(-2πi·k·n/N)`. -/
def dftVal (x : List ℝ) (k : ℕ) : ℂ :=
  ∑ n ∈ Finset.range x.length,
    (x.getD n 0 : ℂ) * Complex.exp (-(2 * Real.pi * Complex.I * k * n) / x.length)

/-- Entry `k` of `scipy.fft.fftfreq(N, d)`: `k/(d·N)` for
`k ≤ (N-1)//2`, and `(k-N)/(d·N)` for the remaining (negative) bins. -/
def fftfreqVal (N : ℕ) (d : ℝ) (k : ℕ) : ℝ :=
  if k ≤ (N - 1) / 2 then (k : ℝ) / (d * N) else ((k : ℝ) - N) / (d * N)

/-- Embeds `compute_spectrum(data)`: full DFT and `fftfreq` axis, boolean mask
`xf >= 0` applied to both, magnitudes scaled by `2/N`.  The module
constant `fs` is passed explicitly (`fftfreq(N, 1/fs)`). -/
def compute_spectrum (data : List ℝ) (fs : ℝ) : List ℝ × List ℝ :=
  let N := data.length
  let xf := (List.range N).map (fftfreqVal N (1 / fs))
  let yf := (List.range N).map (dftVal data)
  let kept := (xf.zip yf).filter (fun p => decide (0 ≤ p.1))
  (kept.map Prod.fst, kept.map (fun p => 2 / (N : ℝ) * Complex.abs p.2))

/-! ## Quality evaluator (`demonstrate_filtering`, lines 115–130) -/

/-- Embeds `np.mean`. -/
def npMean (l : List ℝ) : ℝ := l.sum / l.length

/-- Embeds `np.var` with its default `ddof = 0` (population variance). -/
def npVar (l : List ℝ) : ℝ := ((l.map (fun v => (v - npMean l) ^ 2)).sum) / l.length

/-- Embeds `np.log10` on positive reals. -/
def log10 (x : ℝ) : ℝ := Real.log x / Real.log 10

/-- Embeds numpy elementwise subtraction of two 1-D arrays, with numpy's
broadcasting: equal lengths subtract pointwise, a length-1 operand is
broadcast, and any other shape pair raises `ValueError`. -/
def npSub (x y : List ℝ) : Except PyError (List ℝ) :=
  if x.length = y.length then .ok (List.zipWith (fun u v => u - v) x y)
  else if y.length = 1 then .ok (x.map (fun u => u - y.headD 0))
  else if x.length = 1 then .ok (y.map (fun v => x.headD 0 - v))
  else .error .valueError

/-- The SNR computation of `demonstrate_filtering` (lines 116–119, and
the improvement printed on line 130): residuals by numpy subtraction,
then `10·log10(var(clean)/var(residual))`, with no other validation. -/
def evaluateQuality (clean noisy filtered : List ℝ) : Except PyError (ℝ × ℝ × ℝ) := do
  let noise_before ← npSub noisy clean
  let noise_after ← npSub filtered clean
  let snr_before := 10 * log10 (npVar clean / npVar noise_before)
  let snr_after := 10 * log10 (npVar clean / npVar noise_after)
  .ok (snr_before, snr_after, snr_after - snr_before)

end

open Real

/-! ## Helper lemmas -/

theorem lfilterGo_fst_length (b0 : ℝ) (bt a1 : List ℝ) :
    ∀ (x z : List ℝ), ((lfilterGo b0 bt a1 x z).1).length = x.length := by
  intro x
  induction x with
  | nil => intro z; simp [lfilterGo]
  | cons hd tl ih => intro z; simp [lfilterGo, ih]

theorem lfilter_fst_length (b a x zi : List ℝ) :
    ((lfilter b a x zi).1).length = x.length := by
  unfold lfilter
  exact lfilterGo_fst_length _ _ _ _ _

theorem oddExt_length {x : List ℝ} {n : ℕ} (h : n < x.length) :
    (oddExt x n).length = x.length + 2 * n := by
  unfold oddExt
  split
  · omega
  · simp only [List.length_append, List.length_map, List.length_reverse, List.length_take,
      List.length_drop]
    omega

/-- Applying `filtfilt` on a long-enough buffer succeeds and preserves length. -/
theorem filtfilt_ok_length (b a x : List ℝ)
    (h : 3 * max a.length b.length < x.length) :
    ∃ y, filtfilt b a x = .ok y ∧ y.length = x.length := by
  unfold filtfilt
  rw [if_neg (by omega)]
  refine ⟨_, rfl, ?_⟩
  have hext : (oddExt x (3 * max a.length b.length)).length
      = x.length + 2 * (3 * max a.length b.length) := oddExt_length h
  simp only [List.length_take, List.length_drop, List.length_reverse,
    lfilter_fst_length, hext]
  omega

/-! ## Claim theorems -/

/-- C7: for every filter coefficient pair and every buffer longer than
the padding `3 * max(len(a), len(b))`, zero-phase application
(`filtfilt`) succeeds and returns a buffer of exactly the input's
length. -/
theorem C7_filtfilt_preserves_length (b a x : List ℝ)
    (h : 3 * max a.length b.length < x.length) :
    ∃ y, filtfilt b a x = .ok y ∧ y.length = x.length :=
  filtfilt_ok_length b a x h

/-- Witness for C7: concrete coefficients `b = a = [1]` and a buffer of
length 4 > 3. -/
theorem C7_filtfilt_preserves_length_witness :
    ∃ y, filtfilt [1] [1] [5, 6, 7, 8] = .ok y ∧ y.length = 4 :=
  C7_filtfilt_preserves_length [1] [1] [5, 6, 7, 8] (by simp)

/-- C9: filter design is deterministic — it is a pure function of the
specification and the sample rate, so identical inputs yield identical
coefficient sequences. -/
theorem C9_design_deterministic (s₁ s₂ : FilterSpec) (fs₁ fs₂ : ℝ)
    (hs : s₁ = s₂) (hfs : fs₁ = fs₂) :
    designFilter s₁ fs₁ = designFilter s₂ fs₂ := by
  rw [hs, hfs]

/-- Witness for C9: two designs of the default notch at the default
sample rate coincide. -/
theorem C9_design_deterministic_witness :
    designFilter (.notch 50 30) 1000 = designFilter (.notch 50 30) 1000 :=
  C9_design_deterministic _ _ _ _ rfl rfl

/-- C2: the cascade of `demonstrate_filtering` is exactly the monadic
fold of the three stages notch → high-pass → low-pass, each stage
being design-then-apply on the previous stage's output, the final
low-pass output being the cascade's result. -/
theorem C2_cascade_fixed_order (noisy : List ℝ) (fs : ℝ) :
    demonstrateCascade noisy fs =
      [FilterSpec.notch 50 30, FilterSpec.highpass 0.5 4,
        FilterSpec.lowpass 10 4].foldlM (fun buf s => applyStage fs s buf) noisy := by
  simp only [List.foldlM_cons, List.foldlM_nil, demonstrateCascade, applyStage,
    designFilter, notch_filter, high_pass_filter, low_pass_filter, bind_pure]

theorem butter_isOk_iff (N : ℕ) (Wn : ℝ) (bt : BType) :
    (butter N Wn bt).isOk = true ↔ 0 < Wn ∧ Wn < 1 := by
  unfold butter
  split_ifs with h
  · simp only [Except.isOk, Except.toBool]
    constructor
    · intro hc; cases hc
    · rintro ⟨h1, h2⟩; rcases h with h | h <;> linarith
  · push_neg at h
    simp only [Except.isOk, Except.toBool]
    exact ⟨fun _ => ⟨h.1, h.2⟩, fun _ => trivial⟩

theorem iirnotch_isOk_iff (w0 Q : ℝ) :
    (iirnotch w0 Q).isOk = true ↔ 0 ≤ w0 ∧ w0 ≤ 1 ∧ Q ≠ 0 := by
  unfold iirnotch
  split_ifs with h1 h2
  · simp only [Except.isOk, Except.toBool]
    constructor
    · intro hc; cases hc
    · rintro ⟨ha, hb, _⟩; rcases h1 with h | h <;> linarith
  · simp only [Except.isOk, Except.toBool]
    constructor
    · intro hc; cases hc
    · rintro ⟨_, _, hq⟩; exact absurd h2 hq
  · push_neg at h1
    simp only [Except.isOk, Except.toBool]
    exact ⟨fun _ => ⟨h1.2, h1.1, h2⟩, fun _ => trivial⟩

/-- C5 (amended): with `0 < fs`, high-pass and low-pass design succeed
exactly when the cutoff is strictly within `(0, fs/2)` (so an
out-of-range cutoff raises `ValueError`, the concrete `InvalidParameter`);
notch design succeeds exactly when the center frequency is within the
closed interval `[0, fs/2]` and the quality factor is nonzero (so the
boundaries are accepted and a negative quality factor is accepted);
the order is not validated; and the boundary example
`design(HighPass(600, 4), 1000)` fails. -/
theorem C5_design_validation (fs center Q cutoff : ℝ) (order : ℕ) (hfs : 0 < fs) :
    ((designFilter (.highpass cutoff order) fs).isOk = true ↔ 0 < cutoff ∧ cutoff < fs / 2)
    ∧ ((designFilter (.lowpass cutoff order) fs).isOk = true ↔ 0 < cutoff ∧ cutoff < fs / 2)
    ∧ ((designFilter (.notch center Q) fs).isOk = true ↔
        0 ≤ center ∧ center ≤ fs / 2 ∧ Q ≠ 0)
    ∧ designFilter (.highpass 600 4) 1000 = .error .valueError := by
  have hb : (0 : ℝ) < fs / 2 := by linarith
  refine ⟨?_, ?_, ?_, ?_⟩
  · show (butter order (cutoff / (fs / 2)) .high).isOk = true ↔ _
    rw [butter_isOk_iff, lt_div_iff₀ hb, zero_mul, div_lt_one hb]
  · show (butter order (cutoff / (fs / 2)) .low).isOk = true ↔ _
    rw [butter_isOk_iff, lt_div_iff₀ hb, zero_mul, div_lt_one hb]
  · show (iirnotch (center / (fs / 2)) Q).isOk = true ↔ _
    rw [iirnotch_isOk_iff, le_div_iff₀ hb, zero_mul, div_le_one hb]
  · show butter 4 (600 / (1000 / 2)) .high = .error .valueError
    unfold butter
    rw [if_pos (by norm_num)]

/-- Witness for C5: the theorem applied at the script's own
configuration (`fs = 1000`, notch 50/Q30, cutoffs 0.5 and 10). -/
theorem C5_design_validation_witness :
    (((designFilter (.highpass 0.5 4) 1000).isOk = true ↔
        0 < (0.5 : ℝ) ∧ (0.5 : ℝ) < 1000 / 2)
    ∧ ((designFilter (.lowpass 0.5 4) 1000).isOk = true ↔
        0 < (0.5 : ℝ) ∧ (0.5 : ℝ) < 1000 / 2)
    ∧ ((designFilter (.notch 50 30) 1000).isOk = true ↔
        0 ≤ (50 : ℝ) ∧ (50 : ℝ) ≤ 1000 / 2 ∧ (30 : ℝ) ≠ 0)
    ∧ designFilter (.highpass 600 4) 1000 = .error .valueError) :=
  C5_design_validation 1000 50 30 0.5 4 (by norm_num)

/-- Counterexample to C5 as stated: a notch centered exactly at the
Nyquist frequency (not strictly inside `(0, fs/2)`) with a negative
quality factor, and a high-pass of order `0 < 1`, are all accepted by
the designer rather than rejected. -/
theorem C5_counterexample :
    (designFilter (.notch 500 (-5)) 1000).isOk = true
    ∧ (designFilter (.highpass 100 0) 1000).isOk = true := by
  constructor
  · show (iirnotch (500 / (1000 / 2)) (-5)).isOk = true
    unfold iirnotch
    rw [if_neg (by norm_num), if_neg (by norm_num)]
    rfl
  · show (butter 0 (100 / (1000 / 2)) .high).isOk = true
    unfold butter
    rw [if_neg (by norm_num)]
    rfl

theorem npSub_isOk_iff (x y : List ℝ) :
    (npSub x y).isOk = true ↔
      (x.length = y.length ∨ y.length = 1 ∨ x.length = 1) := by
  unfold npSub
  split_ifs with h1 h2 h3 <;> simp only [Except.isOk, Except.toBool] <;> tauto

theorem evaluateQuality_isOk_iff (clean noisy filtered : List ℝ) :
    (evaluateQuality clean noisy filtered).isOk = true ↔
      ((npSub noisy clean).isOk = true ∧ (npSub filtered clean).isOk = true) := by
  unfold evaluateQuality
  cases hnb : npSub noisy clean with
  | error e => simp [hnb, Except.isOk, Except.toBool, Bind.bind, Except.bind]
  | ok nb =>
    cases hna : npSub filtered clean with
    | error f => simp [hnb, hna, Except.isOk, Except.toBool, Bind.bind, Except.bind]
    | ok na => simp [hnb, hna, Except.isOk, Except.toBool, Bind.bind, Except.bind]

/-- C6 (amended): the evaluator performs no explicit validation.  It
succeeds exactly when both residual subtractions are shape-compatible
under numpy broadcasting — so some unequal-length inputs (a length-1
buffer against any other) are accepted rather than rejected, and a
zero-variance residual is not reported as `Undefined`: the quotient is
computed and returned anyway. -/
theorem C6_no_validation (clean noisy filtered : List ℝ) :
    (evaluateQuality clean noisy filtered).isOk = true ↔
      ((noisy.length = clean.length ∨ clean.length = 1 ∨ noisy.length = 1)
       ∧ (filtered.length = clean.length ∨ clean.length = 1 ∨ filtered.length = 1)) := by
  rw [evaluateQuality_isOk_iff, npSub_isOk_iff, npSub_isOk_iff]

/-- Counterexample to C6 as stated: buffers of unequal lengths 1 and 2
are accepted (numpy broadcasting), and identical buffers — a residual
of zero variance — produce a plain result instead of `Undefined`. -/
theorem C6_counterexample :
    ([1] : List ℝ).length ≠ ([2, 3] : List ℝ).length
    ∧ (evaluateQuality [1] [2, 3] [2, 3]).isOk = true
    ∧ npSub [1, -1] [1, -1] = .ok [0, 0]
    ∧ npVar [0, 0] = 0
    ∧ (evaluateQuality [1, -1] [1, -1] [1, -1]).isOk = true := by
  refine ⟨by simp, rfl, ?_, ?_, rfl⟩
  · unfold npSub
    rw [if_pos rfl]
    norm_num
  · norm_num [npVar, npMean]

/-- C4: for equal-length buffers (with nonzero-variance residuals, as
the claim assumes), the evaluator returns exactly
`SNR_before = 10·log10(var(clean)/var(noisy - clean))`,
`SNR_after = 10·log10(var(clean)/var(filtered - clean))` and
`improvement = SNR_after - SNR_before`. -/
theorem C4_snr_formulas (clean noisy filtered : List ℝ)
    (hn : noisy.length = clean.length) (hf : filtered.length = clean.length)
    (_hvb : npVar (List.zipWith (fun u v => u - v) noisy clean) ≠ 0)
    (_hva : npVar (List.zipWith (fun u v => u - v) filtered clean) ≠ 0) :
    evaluateQuality clean noisy filtered =
      .ok (10 * log10 (npVar clean / npVar (List.zipWith (fun u v => u - v) noisy clean)),
           10 * log10 (npVar clean / npVar (List.zipWith (fun u v => u - v) filtered clean)),
           10 * log10 (npVar clean / npVar (List.zipWith (fun u v => u - v) filtered clean))
             - 10 * log10 (npVar clean / npVar (List.zipWith (fun u v => u - v) noisy clean))) := by
  unfold evaluateQuality npSub
  rw [if_pos hn, if_pos hf]
  rfl

/-- C1 (amended): for positive duration and sample rate, the clean
buffer has length `floor(fs·duration)` and, when that length `N` is at
least 2, sample `i` is
`sin(2π·1.25·t_i) + 0.3·sin(4π·1.25·t_i)` with
`t_i = i·duration/(N-1)` — the `np.linspace` grid including the
endpoint, not the spec's `i/sample_rate` grid. -/
theorem C1_clean_signal (fs duration : ℝ) (_hfs : 0 < fs) (_hdur : 0 < duration)
    (i : ℕ) (hi : i < numSamples fs duration) (h2 : 2 ≤ numSamples fs duration) :
    (cleanBuffer fs duration).length = (⌊fs * duration⌋).toNat
    ∧ (cleanBuffer fs duration).getD i 0 =
        Real.sin (2 * π * 1.25 *
          ((i : ℝ) * duration / ((numSamples fs duration : ℝ) - 1)))
        + 0.3 * Real.sin (4 * π * 1.25 *
          ((i : ℝ) * duration / ((numSamples fs duration : ℝ) - 1))) := by
  constructor
  · simp only [cleanBuffer, List.length_map, List.length_range]
    rfl
  · have hilen : i < (cleanBuffer fs duration).length := by
      simpa [cleanBuffer] using hi
    rw [List.getD_eq_getElem?_getD, List.getElem?_eq_getElem hilen, Option.getD_some]
    simp only [cleanBuffer, List.getElem_map, List.getElem_range]
    unfold cleanSample tVal linspaceVal
    rw [if_neg (by omega)]
    have harg : 0 + (i : ℝ) * (duration - 0) / ((numSamples fs duration : ℝ) - 1)
        = (i : ℝ) * duration / ((numSamples fs duration : ℝ) - 1) := by ring
    rw [harg]

/-- Witness for C1's amended statement at `fs = 2`, `duration = 1`,
`i = 1` (buffer length 2). -/
theorem C1_clean_signal_witness :
    (cleanBuffer 2 1).length = (⌊(2 : ℝ) * 1⌋).toNat
    ∧ (cleanBuffer 2 1).getD 1 0 =
        Real.sin (2 * π * 1.25 * ((1 : ℕ) * (1 : ℝ) / ((numSamples 2 1 : ℝ) - 1)))
        + 0.3 * Real.sin (4 * π * 1.25 * ((1 : ℕ) * (1 : ℝ) / ((numSamples 2 1 : ℝ) - 1))) :=
  C1_clean_signal 2 1 (by norm_num) (by norm_num) 1
    (by rw [show numSamples 2 1 = 2 by norm_num [numSamples]; rfl]; norm_num)
    (by rw [show numSamples 2 1 = 2 by norm_num [numSamples]; rfl])

/-- Counterexample to C1 as stated: at `fs = 2`, `duration = 1` the
buffer has `N = 2` samples and the code's sample 1 (taken on the
endpoint-inclusive `linspace` grid, `t_1 = 1`) differs from the spec's
formula with `t_1 = 1/2`. -/
theorem C1_counterexample : cleanSample 2 1 1 ≠ cleanSpecFormula 2 1 := by
  have hN : numSamples 2 1 = 2 := by norm_num [numSamples]; rfl
  have ht : tVal 2 1 1 = 1 := by
    unfold tVal linspaceVal
    rw [hN]
    norm_num
  have hs1 : Real.sin (2 * π * 1.25 * (1 : ℝ)) = 1 := by
    rw [show 2 * π * 1.25 * (1 : ℝ) = π / 2 + 2 * π by ring,
      Real.sin_add_two_pi, Real.sin_pi_div_two]
  have hs2 : Real.sin (4 * π * 1.25 * (1 : ℝ)) = 0 := by
    rw [show 4 * π * 1.25 * (1 : ℝ) = (5 : ℕ) * π by push_cast; ring,
      Real.sin_nat_mul_pi]
  have hlhs : cleanSample 2 1 1 = 1 := by
    unfold cleanSample
    rw [ht, hs1, hs2]
    ring
  have hs3 : Real.sin (2 * π * 1.25 * ((1 : ℕ) / (2 : ℝ))) = -(Real.sqrt 2 / 2) := by
    rw [show 2 * π * 1.25 * (((1 : ℕ) : ℝ) / (2 : ℝ)) = π + π / 4 by push_cast; ring,
      Real.sin_add, Real.sin_pi, Real.cos_pi, Real.sin_pi_div_four]
    ring
  have hs4 : Real.sin (4 * π * 1.25 * ((1 : ℕ) / (2 : ℝ))) = 1 := by
    rw [show 4 * π * 1.25 * (((1 : ℕ) : ℝ) / (2 : ℝ)) = π / 2 + 2 * π by push_cast; ring,
      Real.sin_add_two_pi, Real.sin_pi_div_two]
  have hrhs : cleanSpecFormula 2 1 = 0.3 - Real.sqrt 2 / 2 := by
    unfold cleanSpecFormula
    rw [hs3, hs4]
    ring
  rw [hlhs, hrhs]
  have hsq : 0 ≤ Real.sqrt 2 := Real.sqrt_nonneg 2
  intro hcontra
  linarith

theorem headD_zero {z : List ℝ} (hz : ∀ v ∈ z, v = 0) : z.headD 0 = 0 := by
  cases z with
  | nil => rfl
  | cons a t => exact hz a (by simp)

theorem getLastD_zero {z : List ℝ} (hz : ∀ v ∈ z, v = 0) : z.getLastD 0 = 0 := by
  cases z with
  | nil => rfl
  | cons a t =>
    rw [List.getLastD_eq_getLast?]
    cases hg : (a :: t).getLast? with
    | none => rfl
    | some w => exact hz w (List.mem_of_getLast?_eq_some hg)

theorem mem_zipWith_zero {α : Type} (g : α → ℝ → ℝ) (hg : ∀ a, g a 0 = 0) :
    ∀ (l : List α) (zs : List ℝ), (∀ v ∈ zs, v = 0) →
      ∀ v ∈ List.zipWith g l zs, v = 0 := by
  intro l
  induction l with
  | nil => intro zs _ v hv; simp at hv
  | cons a l ih =>
    intro zs hzs v hv
    cases zs with
    | nil => simp at hv
    | cons z zt =>
      rw [List.zipWith_cons_cons] at hv
      rcases List.mem_cons.1 hv with h | h
      · have hz : z = 0 := hzs z (by simp)
        rw [h, hz, hg]
      · exact ih zt (fun w hw => hzs w (by simp [hw])) v h

theorem lfilterGo_fst_zero (b0 : ℝ) (bt a1 : List ℝ) :
    ∀ (x z : List ℝ), (∀ v ∈ x, v = 0) → (∀ v ∈ z, v = 0) →
      ∀ v ∈ (lfilterGo b0 bt a1 x z).1, v = 0 := by
  intro x
  induction x with
  | nil => intro z _ _ v hv; simp [lfilterGo] at hv
  | cons hd tl ih =>
    intro z hx hz v hv
    have hhd : hd = 0 := hx hd (by simp)
    have hy : b0 * hd + z.headD 0 = 0 := by rw [hhd, headD_zero hz]; ring
    simp only [lfilterGo] at hv
    rcases List.mem_cons.1 hv with h | h
    · rw [h, hy]
    · have hzs : ∀ w ∈ z.drop 1 ++ [(0 : ℝ)], w = 0 := by
        intro w hw
        rcases List.mem_append.1 hw with hw | hw
        · exact hz w (List.mem_of_mem_drop hw)
        · simpa using hw
      have hz2 : ∀ w ∈ List.zipWith
          (fun q zn => q.1 * hd - q.2 * (b0 * hd + z.headD 0) + zn)
          (bt.zip a1) (z.drop 1 ++ [0]), w = 0 := by
        refine mem_zipWith_zero _ (fun q => ?_) _ _ hzs
        rw [hhd, headD_zero hz]
        ring
      exact ih _ (fun w hw => hx w (by simp [hw])) hz2 v h

theorem lfilter_fst_zero (b a x zi : List ℝ) (hx : ∀ v ∈ x, v = 0)
    (hz : ∀ v ∈ zi, v = 0) : ∀ v ∈ (lfilter b a x zi).1, v = 0 := by
  unfold lfilter
  exact lfilterGo_fst_zero _ _ _ x zi hx hz

theorem oddExt_zero {x : List ℝ} (hx : ∀ v ∈ x, v = 0) (n : ℕ) :
    ∀ v ∈ oddExt x n, v = 0 := by
  unfold oddExt
  split
  · exact hx
  · intro v hv
    have h0 : x.headD 0 = 0 := headD_zero hx
    have hl : x.getLastD 0 = 0 := getLastD_zero hx
    rw [h0, hl] at hv
    rcases List.mem_append.1 hv with hv | hv
    · rcases List.mem_append.1 hv with hv | hv
      · rcases List.mem_map.1 hv with ⟨w, hw, rfl⟩
        have hw0 : w = 0 :=
          hx w (List.mem_of_mem_drop (List.mem_of_mem_take (List.mem_reverse.1 hw)))
        rw [hw0]; ring
      · exact hx v hv
    · rcases List.mem_map.1 hv with ⟨w, hw, rfl⟩
      have hw0 : w = 0 :=
        hx w (List.mem_reverse.1 (List.mem_of_mem_drop (List.mem_of_mem_take hw)))
      rw [hw0]; ring

theorem map_mul_right_zero (zi : List ℝ) (c : ℝ) (hc : c = 0) :
    ∀ v ∈ zi.map (· * c), v = 0 := by
  intro v hv
  rcases List.mem_map.1 hv with ⟨w, _, rfl⟩
  rw [hc, mul_zero]

/-- Applying `filtfilt` to an all-zero buffer (long enough to be
filtered) yields the all-zero buffer of the same length. -/
theorem filtfilt_zeros (b a : List ℝ) (L : ℕ)
    (h : 3 * max a.length b.length < L) :
    filtfilt b a (List.replicate L 0) = .ok (List.replicate L 0) := by
  have hx : ∀ v ∈ List.replicate L (0 : ℝ), v = 0 :=
    fun v hv => List.eq_of_mem_replicate hv
  have hL : (List.replicate L (0 : ℝ)).length = L := List.length_replicate L 0
  unfold filtfilt
  rw [if_neg (by rw [hL]; omega)]
  have hext : ∀ v ∈ oddExt (List.replicate L (0 : ℝ)) (3 * max a.length b.length),
      v = 0 := oddExt_zero hx _
  have hy1 : ∀ v ∈ (lfilter b a (oddExt (List.replicate L 0) (3 * max a.length b.length))
      ((lfilterZi b a).map (· * (oddExt (List.replicate L 0)
        (3 * max a.length b.length)).headD 0))).1, v = 0 :=
    lfilter_fst_zero _ _ _ _ hext (map_mul_right_zero _ _ (headD_zero hext))
  have hy2 : ∀ v ∈ (lfilter b a ((lfilter b a
      (oddExt (List.replicate L 0) (3 * max a.length b.length))
      ((lfilterZi b a).map (· * (oddExt (List.replicate L 0)
        (3 * max a.length b.length)).headD 0))).1).reverse
      ((lfilterZi b a).map (· * ((lfilter b a
        (oddExt (List.replicate L 0) (3 * max a.length b.length))
        ((lfilterZi b a).map (· * (oddExt (List.replicate L 0)
          (3 * max a.length b.length)).headD 0))).1).getLastD 0))).1, v = 0 :=
    lfilter_fst_zero _ _ _ _ (fun v hv => hy1 v (List.mem_reverse.1 hv))
      (map_mul_right_zero _ _ (getLastD_zero hy1))
  refine congrArg Except.ok (List.eq_replicate_iff.2 ⟨?_, ?_⟩)
  · have hextlen : (oddExt (List.replicate L (0 : ℝ)) (3 * max a.length b.length)).length
        = (List.replicate L (0 : ℝ)).length + 2 * (3 * max a.length b.length) :=
      oddExt_length (by rw [hL]; omega)
    simp only [List.length_take, List.length_drop, List.length_reverse,
      lfilter_fst_length, hextlen, hL]
    omega
  · intro v hv
    exact hy2 v (List.mem_reverse.1
      (List.mem_of_mem_drop (List.mem_of_mem_take hv)))

theorem polyStep_length (c : List ℂ) (r : ℂ) :
    (polyStep c r).length = c.length + 1 := by
  unfold polyStep
  simp only [List.length_zipWith, List.length_append, List.length_cons,
    List.length_singleton]
  omega

theorem polyFromRoots_length (roots : List ℂ) :
    (polyFromRoots roots).length = roots.length + 1 := by
  unfold polyFromRoots
  suffices h : ∀ (c : List ℂ), (roots.foldl polyStep c).length
      = c.length + roots.length by
    simpa [Nat.add_comm] using h [1]
  induction roots with
  | nil => intro c; simp
  | cons r rs ih =>
    intro c
    rw [List.foldl_cons, ih (polyStep c r), polyStep_length]
    simp only [List.length_cons]
    omega

theorem buttapPoles_length (N : ℕ) : (buttapPoles N).length = N := by
  unfold buttapPoles
  rw [List.length_map, List.length_range]

/-- A Butterworth design with a valid normalized frequency succeeds and
returns `order + 1` coefficients in each of `b` and `a`. -/
theorem butter_ok_of (N : ℕ) (Wn : ℝ) (bt : BType) (h1 : 0 < Wn) (h2 : Wn < 1) :
    ∃ ba, butter N Wn bt = .ok ba ∧ ba.1.length = N + 1 ∧ ba.2.length = N + 1 := by
  unfold butter
  rw [if_neg (by push_neg; exact ⟨h1, h2⟩)]
  refine ⟨_, rfl, ?_, ?_⟩ <;> cases bt <;>
    simp [polyFromRoots_length, buttapPoles_length, List.length_append,
      List.length_map, List.length_replicate]

/-- C8: for every valid high-pass specification (`0 < fs`,
`0 < cutoff < fs/2`) and every all-zero buffer long enough to be
filtered (`L > 3·(order+1)`), designing and zero-phase applying the
high-pass filter returns the all-zero buffer. -/
theorem C8_highpass_zero_buffer (order : ℕ) (cutoff fs : ℝ) (L : ℕ)
    (_hfs : 0 < fs) (hc : 0 < cutoff) (hcn : cutoff < fs / 2)
    (hL : 3 * (order + 1) < L) :
    high_pass_filter (List.replicate L 0) cutoff order fs
      = .ok (List.replicate L 0) := by
  have hb : (0 : ℝ) < fs / 2 := by linarith
  obtain ⟨ba, hba, hb1, hb2⟩ := butter_ok_of order (cutoff / (fs / 2)) .high
    (div_pos hc hb) ((div_lt_one hb).2 hcn)
  unfold high_pass_filter
  rw [hba]
  show filtfilt ba.1 ba.2 _ = _
  exact filtfilt_zeros ba.1 ba.2 L (by rw [hb1, hb2]; simpa using hL)

/-- Witness for C8 with the script's own high-pass parameters and a
zero buffer of length 16 > 3·5. -/
theorem C8_highpass_zero_buffer_witness :
    high_pass_filter (List.replicate 16 0) 0.5 4 1000
      = .ok (List.replicate 16 0) :=
  C8_highpass_zero_buffer 4 0.5 1000 16 (by norm_num) (by norm_num)
    (by norm_num) (by norm_num)

theorem compute_spectrum_eq (data : List ℝ) (fs : ℝ) :
    compute_spectrum data fs =
      (((List.range data.length).filter
          (fun k => decide (0 ≤ fftfreqVal data.length (1 / fs) k))).map
            (fftfreqVal data.length (1 / fs)),
       ((List.range data.length).filter
          (fun k => decide (0 ≤ fftfreqVal data.length (1 / fs) k))).map
            (fun k => 2 / (data.length : ℝ) * Complex.abs (dftVal data k))) := by
  unfold compute_spectrum
  dsimp only
  rw [List.zip_map']
  rw [List.filter_map]
  simp [List.map_map, Function.comp_def]

theorem fftfreqVal_nonneg_iff {N : ℕ} {d : ℝ} (hd : 0 < d) {k : ℕ} (hk : k < N) :
    (0 ≤ fftfreqVal N d k ↔ k ≤ (N - 1) / 2) := by
  have hN : (0 : ℝ) < d * N := by
    have : (0 : ℝ) < (N : ℝ) := by exact_mod_cast Nat.pos_of_ne_zero (by omega)
    positivity
  unfold fftfreqVal
  split_ifs with h
  · simp only [h, iff_true]
    positivity
  · simp only [h, iff_false, not_le]
    apply div_neg_of_neg_of_pos _ hN
    have : (k : ℝ) < (N : ℝ) := by exact_mod_cast hk
    linarith

theorem range_filter_le (m : ℕ) : ∀ (N : ℕ), m < N →
    (List.range N).filter (fun k => decide (k ≤ m)) = List.range (m + 1) := by
  intro N
  induction N with
  | zero => intro h; omega
  | succ N ih =>
    intro h
    rcases Nat.lt_succ_iff_lt_or_eq.1 h with h' | h'
    · rw [List.range_succ, List.filter_append, ih h']
      have : ¬ (N ≤ m) := by omega
      simp [this]
    · subst h'
      rw [List.filter_eq_self.2]
      intro a ha
      simp only [List.mem_range] at ha
      simp only [decide_eq_true_eq]
      omega

/-- The retained index set of `compute_spectrum` is an initial segment:
exactly the bins `0 … (N-1)//2`. -/
theorem spectrum_kept_indices (data : List ℝ) (fs : ℝ) (hfs : 0 < fs)
    (hne : data ≠ []) :
    (List.range data.length).filter
        (fun k => decide (0 ≤ fftfreqVal data.length (1 / fs) k)) =
      List.range ((data.length - 1) / 2 + 1) := by
  have hN : 0 < data.length := List.length_pos.2 hne
  have hd : (0 : ℝ) < 1 / fs := by positivity
  rw [List.filter_congr (fun k hk => ?_)]
  · exact range_filter_le _ _ (by omega)
  · exact decide_eq_decide.2 (fftfreqVal_nonneg_iff hd (List.mem_range.1 hk))

/-- C3: on a non-empty buffer the analyzer retains exactly the DFT bins
whose `fftfreq` label is non-negative, returning those labels as the
frequency axis, and each retained bin's magnitude is `(2/N)·|DFT bin|`. -/
theorem C3_spectrum_nonneg_bins (data : List ℝ) (fs : ℝ) (_hne : data ≠ []) :
    (compute_spectrum data fs).1 =
      ((List.range data.length).filter
        (fun k => decide (0 ≤ fftfreqVal data.length (1 / fs) k))).map
          (fftfreqVal data.length (1 / fs))
    ∧ (compute_spectrum data fs).2 =
      ((List.range data.length).filter
        (fun k => decide (0 ≤ fftfreqVal data.length (1 / fs) k))).map
          (fun k => 2 / (data.length : ℝ) * Complex.abs (dftVal data k)) := by
  rw [compute_spectrum_eq]
  exact ⟨rfl, rfl⟩

/-- Witness for C3 on the buffer `[1, 0]`. -/
theorem C3_spectrum_nonneg_bins_witness :
    (compute_spectrum [1, 0] 1000).1 =
      ((List.range ([1, 0] : List ℝ).length).filter
        (fun k => decide (0 ≤ fftfreqVal ([1, 0] : List ℝ).length (1 / 1000) k))).map
          (fftfreqVal ([1, 0] : List ℝ).length (1 / 1000))
    ∧ (compute_spectrum [1, 0] 1000).2 =
      ((List.range ([1, 0] : List ℝ).length).filter
        (fun k => decide (0 ≤ fftfreqVal ([1, 0] : List ℝ).length (1 / 1000) k))).map
          (fun k => 2 / (([1, 0] : List ℝ).length : ℝ) * Complex.abs (dftVal [1, 0] k)) :=
  C3_spectrum_nonneg_bins [1, 0] 1000 (by simp)

/-- C10: on an even-length buffer the analyzer returns exactly `N/2`
bins, the Nyquist bin `N/2` being excluded because its `fftfreq` label
is negative; on an odd-length buffer it returns `(N+1)/2` bins. -/
theorem C10_bin_count (data : List ℝ) (fs : ℝ) (hfs : 0 < fs) (hne : data ≠ []) :
    (data.length % 2 = 0 →
      (compute_spectrum data fs).1.length = data.length / 2
      ∧ fftfreqVal data.length (1 / fs) (data.length / 2) < 0
      ∧ (data.length / 2) ∉ (List.range data.length).filter
          (fun k => decide (0 ≤ fftfreqVal data.length (1 / fs) k)))
    ∧ (data.length % 2 = 1 →
      (compute_spectrum data fs).1.length = (data.length + 1) / 2) := by
  have hN : 0 < data.length := List.length_pos.2 hne
  have hkept := spectrum_kept_indices data fs hfs hne
  have hlen : (compute_spectrum data fs).1.length = (data.length - 1) / 2 + 1 := by
    rw [compute_spectrum_eq]
    simp only [List.length_map, hkept, List.length_range]
  constructor
  · intro he
    refine ⟨by rw [hlen]; omega, ?_, ?_⟩
    · unfold fftfreqVal
      rw [if_neg (by omega)]
      apply div_neg_of_neg_of_pos
      · have : ((data.length / 2 : ℕ) : ℝ) < (data.length : ℝ) := by
          exact_mod_cast Nat.div_lt_self hN (by omega)
        linarith
      · have : (0 : ℝ) < (data.length : ℝ) := by exact_mod_cast hN
        positivity
    · rw [hkept]
      simp only [List.mem_range]
      omega
  · intro ho
    rw [hlen]
    omega

/-- Witness for C10 on the even-length buffer `[1, 0]`. -/
theorem C10_bin_count_witness :
    ((([1, 0] : List ℝ).length % 2 = 0 →
      (compute_spectrum [1, 0] 1000).1.length = ([1, 0] : List ℝ).length / 2
      ∧ fftfreqVal ([1, 0] : List ℝ).length (1 / 1000) (([1, 0] : List ℝ).length / 2) < 0
      ∧ (([1, 0] : List ℝ).length / 2) ∉ (List.range ([1, 0] : List ℝ).length).filter
          (fun k => decide (0 ≤ fftfreqVal ([1, 0] : List ℝ).length (1 / 1000) k)))
    ∧ (([1, 0] : List ℝ).length % 2 = 1 →
      (compute_spectrum [1, 0] 1000).1.length = (([1, 0] : List ℝ).length + 1) / 2)) :=
  C10_bin_count [1, 0] 1000 (by norm_num) (by simp)

/-- Witness for C4 on concrete buffers of length 2. -/
theorem C4_snr_formulas_witness :
    evaluateQuality [0, 2] [0, 4] [0, 3] =
      .ok (10 * log10 (npVar [0, 2] / npVar (List.zipWith (fun u v => u - v) [0, 4] [0, 2])),
           10 * log10 (npVar [0, 2] / npVar (List.zipWith (fun u v => u - v) [0, 3] [0, 2])),
           10 * log10 (npVar [0, 2] / npVar (List.zipWith (fun u v => u - v) [0, 3] [0, 2]))
             - 10 * log10 (npVar [0, 2] / npVar (List.zipWith (fun u v => u - v) [0, 4] [0, 2]))) :=
  C4_snr_formulas [0, 2] [0, 4] [0, 3] rfl rfl
    (by norm_num [npVar, npMean]) (by norm_num [npVar, npMean])
